import Mathlib

/-!
Verification of the patient record service in src/main.py: the data model
with its derived bmi and category fields, the file storage helpers, and the
create, update, delete and sort route handlers. Python floats are modelled
as rationals, serialized dictionaries as records together with an
association-list view of their key-value pairs, and raised HTTP exceptions
as an `Except` error component.
-/

set_option maxRecDepth 16000

instance exceptDecEq {ε α : Type} [DecidableEq ε] [DecidableEq α] :
    DecidableEq (Except ε α) := fun x y =>
  match x, y with
  | .error a, .error b =>
    if h : a = b then .isTrue (congrArg Except.error h)
    else .isFalse (fun hc => h (Except.error.inj hc))
  | .ok a, .ok b =>
    if h : a = b then .isTrue (congrArg Except.ok h)
    else .isFalse (fun hc => h (Except.ok.inj hc))
  | .error _, .ok _ => .isFalse (fun hc => Except.noConfusion hc)
  | .ok _, .error _ => .isFalse (fun hc => Except.noConfusion hc)

/-- The enumerated gender values accepted by the `Patient` model
(`Literal["male", "female", "others"]`). -/
inductive Gender where
  | male
  | female
  | others
deriving DecidableEq, Repr

/-- String form of a gender value as it appears in a serialized document. -/
def Gender.str : Gender → String
  | .male => "male"
  | .female => "female"
  | .others => "others"

/-- Rounding to 2 decimal places, `round(x, 2)` in the source, modelled as
round-half-up on exact rationals; no claim exercises a tie at the third
decimal, where Python float rounding could differ. -/
def round2 (q : ℚ) : ℚ := (⌊100 * q + 1 / 2⌋ : ℚ) / 100

/-- The `Patient` pydantic model of src/main.py: declared fields only; the
computed fields `bmi` and `verified` are the functions below. -/
structure Patient where
  id : Int
  name : String
  age : Int
  city : String
  height : ℚ
  weight : ℚ
  gender : Gender
deriving DecidableEq, Repr

/-- Computed field `bmi`: `round(self.weight / ((self.height / 100) ** 2), 2)`. -/
def Patient.bmi (p : Patient) : ℚ := round2 (p.weight / ((p.height / 100) ^ 2))

/-- Computed field `verified`: the BMI category thresholds of src/main.py. -/
def Patient.verified (p : Patient) : String :=
  let bmi := p.bmi
  if bmi < 18.5 then "Underweight"
  else if bmi < 25 then "Healthy"
  else if bmi < 30 then "Overweight"
  else "Obese"

/-- Field constraints enforced by pydantic on `Patient`: `id`, `age`,
`height` and `weight` are annotated `gt=0`; the gender enumeration is
enforced by the `Gender` type itself. -/
def Patient.valid (p : Patient) : Prop :=
  0 < p.id ∧ 0 < p.age ∧ 0 < p.height ∧ 0 < p.weight

instance (p : Patient) : Decidable p.valid := by
  unfold Patient.valid; infer_instance

/-- One record object as persisted by `patient.model_dump()`: pydantic v2
serializes the declared fields and the `@computed_field` properties, so a
dumped record carries `bmi` and `verified` alongside the base fields. -/
structure StoredRecord where
  id : Int
  name : String
  age : Int
  city : String
  height : ℚ
  weight : ℚ
  gender : Gender
  bmi : ℚ
  verified : String
deriving DecidableEq, Repr

/-- `patient.model_dump()`. -/
def modelDump (p : Patient) : StoredRecord :=
  ⟨p.id, p.name, p.age, p.city, p.height, p.weight, p.gender, p.bmi, p.verified⟩

/-- `Patient(**record)`: constructing a `Patient` from a stored dictionary
reads the declared fields and ignores the extra `bmi` and `verified` keys
(pydantic default `extra="ignore"`). -/
def toPatient (r : StoredRecord) : Patient :=
  ⟨r.id, r.name, r.age, r.city, r.height, r.weight, r.gender⟩

/-- JSON scalar values as they appear in the persisted document. -/
inductive JVal where
  | jint (n : Int)
  | jnum (q : ℚ)
  | jstr (s : String)
deriving DecidableEq, Repr

/-- The key-value pairs of one serialized record object, in dump order:
declared fields first, then the computed fields. -/
def StoredRecord.toPairs (r : StoredRecord) : List (String × JVal) :=
  [("id", .jint r.id), ("name", .jstr r.name), ("age", .jint r.age),
   ("city", .jstr r.city), ("height", .jnum r.height), ("weight", .jnum r.weight),
   ("gender", .jstr r.gender.str), ("bmi", .jnum r.bmi), ("verified", .jstr r.verified)]

/-- `HTTPException(status_code, detail)`. -/
structure HTTPError where
  status : Nat
  detail : String
deriving DecidableEq, Repr

def conflictDetail : String := "Patient with this ID already exists"

def notFoundDetail : String := "Patient not found"

def sortFieldDetail : String :=
  "Invalid sort field. Choose from [\x27height\x27, \x27weight\x27, \x27age\x27, \x27bmi\x27]"

def sortOrderDetail : String := "Order must be \"asc\" or \"desc\""

/-- State of the persisted `patients.json` document: missing, present but
not valid JSON, or a parsed sequence of record objects. -/
inductive FileState where
  | absent
  | unparsable
  | parsed (records : List StoredRecord)
deriving DecidableEq, Repr

/-- `load_data()`: returns the parsed document, and `[]` when opening the
file raises `FileNotFoundError` or parsing raises `JSONDecodeError`. -/
def load_data : FileState → List StoredRecord
  | .parsed records => records
  | _ => []

/-- `save_data(data)`: overwrites the document with the serialized list. -/
def save_data (data : List StoredRecord) : FileState := .parsed data

/-- `create_patient` route: returns the storage contents after the request
and the response, a 201 created record or an error raised before any
`save_data` call. -/
def create_patient (data : List StoredRecord) (patient : Patient) :
    List StoredRecord × Except HTTPError StoredRecord :=
  if data.any (fun p => p.id == patient.id) then
    (data, .error ⟨400, conflictDetail⟩)
  else
    (data ++ [modelDump patient], .ok (modelDump patient))

/-- `PatientUpdate`: all fields optional; `none` models a field left unset
in the request body. -/
structure PatientUpdate where
  name : Option String := none
  age : Option Int := none
  city : Option String := none
  height : Option ℚ := none
  weight : Option ℚ := none
  gender : Option Gender := none
deriving DecidableEq, Repr

/-- Merging `patient_update.model_dump(exclude_unset=True)` onto the stored
dictionary and re-reading the merge as a `Patient`: each supplied field
overrides, each unset field keeps the stored value, and `id` is not an
updatable field. -/
def applyUpdate (r : StoredRecord) (u : PatientUpdate) : Patient :=
  { id := r.id
    name := u.name.getD r.name
    age := u.age.getD r.age
    city := u.city.getD r.city
    height := u.height.getD r.height
    weight := u.weight.getD r.weight
    gender := u.gender.getD r.gender }

/-- Loop body of `update_patient`: walk the list for the first record whose
id matches. On a match, the `Patient(**updated_data)` call validates the
merged fields, raising on a constraint violation and so aborting the
request before `save_data` (the raised status is not inspected by any
claim); otherwise the dump of the merged patient replaces the record in
place. `none` means no record matched. -/
def updateGo (pid : Int) (u : PatientUpdate) :
    List StoredRecord → Option (Except HTTPError (List StoredRecord × StoredRecord))
  | [] => none
  | r :: rest =>
    if r.id = pid then
      let merged := applyUpdate r u
      if merged.valid then
        some (.ok (modelDump merged :: rest, modelDump merged))
      else
        some (.error ⟨500, "ValidationError"⟩)
    else
      (updateGo pid u rest).map (Except.map (fun x => (r :: x.1, x.2)))

/-- `update_patient` route: 404 when no record has the id; otherwise merge,
re-validate, store, and return the updated dump. On any error the document
keeps the loaded contents. -/
def update_patient (data : List StoredRecord) (pid : Int) (u : PatientUpdate) :
    List StoredRecord × Except HTTPError StoredRecord :=
  match updateGo pid u data with
  | none => (data, .error ⟨404, notFoundDetail⟩)
  | some (.error e) => (data, .error e)
  | some (.ok (newData, resp)) => (newData, .ok resp)

/-- Loop body of `delete_patient`: remove the first record whose id matches;
`none` means no record matched. -/
def deleteGo (pid : Int) : List StoredRecord → Option (List StoredRecord)
  | [] => none
  | r :: rest =>
    if r.id = pid then some rest
    else (deleteGo pid rest).map (r :: ·)

/-- `delete_patient` route. -/
def delete_patient (data : List StoredRecord) (pid : Int) :
    List StoredRecord × Except HTTPError String :=
  match deleteGo pid data with
  | none => (data, .error ⟨404, notFoundDetail⟩)
  | some newData => (newData, .ok "Patient deleted successfully")

def validFields : List String := ["height", "weight", "age", "bmi"]

/-- `getattr(p, sort_by)` for the four permitted sort fields. -/
def sortKey (field : String) (p : Patient) : ℚ :=
  if field = "height" then p.height
  else if field = "weight" then p.weight
  else if field = "age" then (p.age : ℚ)
  else p.bmi

/-- Comparison used by the stable sort for ascending order on the chosen
field. -/
def leAsc (field : String) (a b : Patient) : Bool :=
  decide (sortKey field a ≤ sortKey field b)

/-- Comparison used by the stable sort with `reverse=True`: each comparison
reversed, records with equal keys keeping their original order. -/
def leDesc (field : String) (a b : Patient) : Bool :=
  decide (sortKey field b ≤ sortKey field a)

/-- `sort_patients` route: validate the query parameters, re-read the stored
records as `Patient` models (recomputing bmi), stable-sort by the chosen
attribute with `reverse = (order == "desc")`, and dump the result. The
handler never calls `save_data`, so the first component is the storage as
loaded. -/
def sort_patients (data : List StoredRecord) (sort_by order : String) :
    List StoredRecord × Except HTTPError (List StoredRecord) :=
  if sort_by ∉ validFields then
    (data, .error ⟨400, sortFieldDetail⟩)
  else if order ∉ ["asc", "desc"] then
    (data, .error ⟨400, sortOrderDetail⟩)
  else
    let patients := data.map toPatient
    let le : Patient → Patient → Bool :=
      if order = "desc" then leDesc sort_by else leAsc sort_by
    (data, .ok ((patients.mergeSort le).map modelDump))

/-- The `/sort` route as dispatched by the framework: `order` is declared
`Query("asc")`, so an omitted parameter (modelled as `none`) defaults to
`"asc"`. -/
def sortEndpoint (data : List StoredRecord) (sort_by : String) (order : Option String) :
    List StoredRecord × Except HTTPError (List StoredRecord) :=
  sort_patients data sort_by (order.getD "asc")

/-- Whether the string `t` occurs inside `s`, as a contiguous run of its
characters: used to state whether an error detail names a given value. -/
def containsStr (s t : String) : Prop := t.data <:+: s.data

instance (s t : String) : Decidable (containsStr s t) := by
  unfold containsStr; infer_instance

/-- A concrete valid record used as a test input. -/
def pA : Patient := ⟨1, "John Doe", 30, "New York", 175, 70, .male⟩

/-- A second concrete valid record with a different id. -/
def pB : Patient := ⟨2, "Jane Roe", 25, "Paris", 160, 60, .female⟩

/-- The concrete record of the spec example: weight 55.5 kg, height 150 cm. -/
def pC : Patient := ⟨3, "Sam Poe", 40, "Pune", 150, 55.5, .others⟩

/-- A record whose bmi is exactly 18.5. -/
def pBound1 : Patient := ⟨4, "Ann", 22, "Oslo", 100, 18.5, .female⟩

/-- A record whose bmi is exactly 25. -/
def pBound2 : Patient := ⟨5, "Bob", 23, "Rome", 100, 25, .male⟩

/-- A partial update payload supplying only the weight. -/
def uW : PatientUpdate := { weight := some 60 }

theorem toPatient_modelDump (p : Patient) : toPatient (modelDump p) = p := rfl

/-- C2: for every valid record the derived category follows the fixed
thresholds, and boundary values belong to the upper bucket: a record whose
bmi is exactly 18.5 is Healthy and one whose bmi is exactly 25 is
Overweight. -/
theorem C2_category_thresholds :
    (∀ p : Patient, p.valid →
      ((p.bmi < 18.5 → p.verified = "Underweight") ∧
       (18.5 ≤ p.bmi → p.bmi < 25 → p.verified = "Healthy") ∧
       (25 ≤ p.bmi → p.bmi < 30 → p.verified = "Overweight") ∧
       (30 ≤ p.bmi → p.verified = "Obese"))) ∧
    pBound1.bmi = 18.5 ∧ pBound1.verified = "Healthy" ∧
    pBound2.bmi = 25 ∧ pBound2.verified = "Overweight" := by
  refine ⟨fun p _ => ⟨?_, ?_, ?_, ?_⟩, ?_, ?_, ?_, ?_⟩
  · intro h
    simp only [Patient.verified]
    rw [if_pos h]
  · intro h1 h2
    simp only [Patient.verified]
    rw [if_neg (not_lt.2 h1), if_pos h2]
  · intro h1 h2
    simp only [Patient.verified]
    rw [if_neg (not_lt.2 (le_trans (by norm_num) h1)), if_neg (not_lt.2 h1), if_pos h2]
  · intro h
    simp only [Patient.verified]
    rw [if_neg (not_lt.2 (le_trans (by norm_num) h)),
      if_neg (not_lt.2 (le_trans (by norm_num) h)), if_neg (not_lt.2 h)]
  · norm_num [pBound1, Patient.bmi, round2]
  · norm_num [pBound1, Patient.verified, Patient.bmi, round2]
  · norm_num [pBound2, Patient.bmi, round2]
  · norm_num [pBound2, Patient.verified, Patient.bmi, round2]

/-- C2 witness: the threshold clause applied to the concrete valid record
pA. -/
theorem C2_category_thresholds_witness :
    pA.valid ∧
    ((pA.bmi < 18.5 → pA.verified = "Underweight") ∧
     (18.5 ≤ pA.bmi → pA.bmi < 25 → pA.verified = "Healthy") ∧
     (25 ≤ pA.bmi → pA.bmi < 30 → pA.verified = "Overweight") ∧
     (30 ≤ pA.bmi → pA.verified = "Obese")) :=
  ⟨by norm_num [pA, Patient.valid],
   C2_category_thresholds.1 pA (by norm_num [pA, Patient.valid])⟩

/-- C3: for every valid record the derived bmi is the weight in kg divided
by the squared height in metres, rounded to 2 decimals, and the concrete
record with weight 55.5 and height 150 has bmi 24.67 and category
Healthy. -/
theorem C3_bmi_formula :
    (∀ p : Patient, p.valid → p.bmi = round2 (p.weight / ((p.height / 100) ^ 2))) ∧
    pC.bmi = 24.67 ∧ pC.verified = "Healthy" := by
  refine ⟨fun p _ => rfl, ?_, ?_⟩
  · norm_num [pC, Patient.bmi, round2]
  · norm_num [pC, Patient.verified, Patient.bmi, round2]

/-- C3 witness: the bmi formula applied to the concrete valid record pC. -/
theorem C3_bmi_formula_witness :
    pC.valid ∧ pC.bmi = round2 (pC.weight / ((pC.height / 100) ^ 2)) :=
  ⟨by norm_num [pC, Patient.valid],
   C3_bmi_formula.1 pC (by norm_num [pC, Patient.valid])⟩

/-- C9 counterexample: on an absent document the load-then-save round trip
writes an empty collection, so the persisted document does change. -/
theorem C9_roundtrip_cex :
    save_data (load_data FileState.absent) ≠ FileState.absent := by
  simp [save_data, load_data]

/-- C9 amended: the load-then-save round trip preserves a parsable
document, while an absent or unparsable document is replaced by the empty
collection. -/
theorem C9_roundtrip_amended :
    (∀ records : List StoredRecord,
      save_data (load_data (FileState.parsed records)) = FileState.parsed records) ∧
    save_data (load_data FileState.absent) = FileState.parsed [] ∧
    save_data (load_data FileState.unparsable) = FileState.parsed [] :=
  ⟨fun _ => rfl, rfl, rfl⟩

/-- C10: a sort request that omits the order parameter behaves exactly as
if order=asc had been supplied, and with a valid sort field it succeeds. -/
theorem C10_default_order_asc :
    ∀ (data : List StoredRecord) (field : String), field ∈ validFields →
      sortEndpoint data field none = sort_patients data field "asc" ∧
      ∃ out, (sortEndpoint data field none).2 = .ok out := by
  intro data field hf
  refine ⟨rfl, ?_⟩
  simp only [sortEndpoint, Option.getD, sort_patients]
  rw [if_neg (not_not_intro hf), if_neg (not_not_intro (by decide))]
  exact ⟨_, rfl⟩

/-- C10 witness: sorting by age with the order parameter omitted. -/
theorem C10_default_order_asc_witness :
    "age" ∈ validFields ∧
    (sortEndpoint [modelDump pA] "age" none = sort_patients [modelDump pA] "age" "asc" ∧
     ∃ out, (sortEndpoint [modelDump pA] "age" none).2 = .ok out) :=
  ⟨by decide, C10_default_order_asc [modelDump pA] "age" (by decide)⟩

/-- C7 counterexample: an invalid sort field yields a 400 whose detail
names the allowed field set but does not name the offending value. -/
theorem C7_badrequest_cex :
    (sort_patients [] "invalidfield" "asc").2 = .error ⟨400, sortFieldDetail⟩ ∧
    ¬ containsStr sortFieldDetail "invalidfield" := by
  constructor
  · rfl
  · decide

/-- C7 amended: an invalid sort field or order signals a 400 whose detail
names the allowed values, and the handler performs no save, returning the
storage document as loaded. -/
theorem C7_badrequest_amended :
    ∀ (data : List StoredRecord) (field order : String),
      (field ∉ validFields →
        sort_patients data field order = (data, .error ⟨400, sortFieldDetail⟩)) ∧
      (field ∈ validFields → order ∉ ["asc", "desc"] →
        sort_patients data field order = (data, .error ⟨400, sortOrderDetail⟩)) := by
  intro data field order
  constructor
  · intro h
    simp only [sort_patients]
    rw [if_pos h]
  · intro hf ho
    simp only [sort_patients]
    rw [if_neg (not_not_intro hf), if_pos ho]

/-- C7 witness: an invalid field and an invalid order on a concrete
document. -/
theorem C7_badrequest_witness :
    "invalidfield" ∉ validFields ∧
    sort_patients [modelDump pA] "invalidfield" "desc" =
      ([modelDump pA], .error ⟨400, sortFieldDetail⟩) ∧
    "zz" ∉ ["asc", "desc"] ∧
    sort_patients [modelDump pA] "age" "zz" =
      ([modelDump pA], .error ⟨400, sortOrderDetail⟩) :=
  ⟨by decide,
   (C7_badrequest_amended [modelDump pA] "invalidfield" "desc").1 (by decide),
   by decide,
   (C7_badrequest_amended [modelDump pA] "age" "zz").2 (by decide) (by decide)⟩

/-- C5: create signals Conflict (400) and leaves the storage document
unchanged when the id already exists; otherwise it appends the dump of the
new record and returns it, derived fields included. -/
theorem C5_create_conflict_or_append :
    ∀ (data : List StoredRecord) (p : Patient), p.valid →
      ((∃ r ∈ data, r.id = p.id) →
        create_patient data p = (data, .error ⟨400, conflictDetail⟩)) ∧
      ((∀ r ∈ data, r.id ≠ p.id) →
        create_patient data p = (data ++ [modelDump p], .ok (modelDump p)) ∧
        (modelDump p).bmi = p.bmi ∧ (modelDump p).verified = p.verified) := by
  intro data p _
  constructor
  · rintro ⟨r, hr, hid⟩
    have hc : data.any (fun q => q.id == p.id) = true :=
      List.any_eq_true.2 ⟨r, hr, by simpa using hid⟩
    simp only [create_patient]
    rw [if_pos hc]
  · intro h
    refine ⟨?_, rfl, rfl⟩
    have hc : ¬ data.any (fun q => q.id == p.id) = true := by
      intro hc
      obtain ⟨r, hr, hbeq⟩ := List.any_eq_true.1 hc
      exact h r hr (by simpa using hbeq)
    simp only [create_patient]
    rw [if_neg hc]

/-- C5 witness: a duplicate create on a one-record document and a fresh
create on the empty document. -/
theorem C5_create_witness :
    pA.valid ∧ (∃ r ∈ [modelDump pA], r.id = pA.id) ∧
    create_patient [modelDump pA] pA = ([modelDump pA], .error ⟨400, conflictDetail⟩) ∧
    (∀ r ∈ ([] : List StoredRecord), r.id ≠ pA.id) ∧
    (create_patient [] pA = ([modelDump pA], .ok (modelDump pA)) ∧
      (modelDump pA).bmi = pA.bmi ∧ (modelDump pA).verified = pA.verified) := by
  have hv : pA.valid := by norm_num [pA, Patient.valid]
  have hex : ∃ r ∈ [modelDump pA], r.id = pA.id := ⟨modelDump pA, by simp, rfl⟩
  have hfr : ∀ r ∈ ([] : List StoredRecord), r.id ≠ pA.id := by simp
  refine ⟨hv, hex, ?_, hfr, ?_⟩
  · exact (C5_create_conflict_or_append [modelDump pA] pA hv).1 hex
  · simpa using (C5_create_conflict_or_append [] pA hv).2 hfr

theorem deleteGo_eq_none {pid : Int} :
    ∀ {l : List StoredRecord}, (∀ r ∈ l, r.id ≠ pid) → deleteGo pid l = none := by
  intro l
  induction l with
  | nil => intro _; rfl
  | cons r rest ih =>
    intro h
    simp only [deleteGo]
    rw [if_neg (h r (List.mem_cons_self r rest)),
      ih (fun x hx => h x (List.mem_cons_of_mem r hx))]
    rfl

theorem deleteGo_eq_some {pid : Int} (r : StoredRecord) (post : List StoredRecord)
    (hr : r.id = pid) :
    ∀ (pre : List StoredRecord), (∀ x ∈ pre, x.id ≠ pid) →
      deleteGo pid (pre ++ r :: post) = some (pre ++ post) := by
  intro pre
  induction pre with
  | nil =>
    intro _
    simp only [List.nil_append, deleteGo]
    rw [if_pos hr]
  | cons x rest ih =>
    intro h
    simp only [List.cons_append, deleteGo, List.append_eq]
    rw [if_neg (h x (List.mem_cons_self x rest)),
      ih (fun y hy => h y (List.mem_cons_of_mem x hy))]
    rfl

/-- C6: delete signals NotFound (404) and leaves the storage document
unchanged when the id is absent; otherwise it removes the first record with
that id, persists the remaining records, and returns the confirmation. -/
theorem C6_delete_notfound_or_remove :
    ∀ (data : List StoredRecord) (pid : Int),
      ((∀ r ∈ data, r.id ≠ pid) →
        delete_patient data pid = (data, .error ⟨404, notFoundDetail⟩)) ∧
      (∀ (pre : List StoredRecord) (r : StoredRecord) (post : List StoredRecord),
        data = pre ++ r :: post → (∀ x ∈ pre, x.id ≠ pid) → r.id = pid →
        delete_patient data pid = (pre ++ post, .ok "Patient deleted successfully")) := by
  intro data pid
  constructor
  · intro h
    simp only [delete_patient]
    rw [deleteGo_eq_none h]
  · intro pre r post hdata hpre hr
    subst hdata
    simp only [delete_patient]
    rw [deleteGo_eq_some r post hr pre hpre]

/-- C6 witness: deleting a missing id from a one-record document, and
deleting the second record of a two-record document. -/
theorem C6_delete_witness :
    (∀ r ∈ [modelDump pA], r.id ≠ (9 : Int)) ∧
    delete_patient [modelDump pA] 9 = ([modelDump pA], .error ⟨404, notFoundDetail⟩) ∧
    ([modelDump pA, modelDump pB] = [modelDump pA] ++ modelDump pB :: [] ∧
      (∀ x ∈ [modelDump pA], x.id ≠ (2 : Int)) ∧ (modelDump pB).id = 2) ∧
    delete_patient [modelDump pA, modelDump pB] 2 =
      ([modelDump pA] ++ [], .ok "Patient deleted successfully") := by
  have h9 : ∀ r ∈ [modelDump pA], r.id ≠ (9 : Int) := by
    intro r hr
    rw [List.mem_singleton] at hr
    subst hr
    decide
  have h2 : ∀ x ∈ [modelDump pA], x.id ≠ (2 : Int) := by
    intro r hr
    rw [List.mem_singleton] at hr
    subst hr
    decide
  refine ⟨h9, (C6_delete_notfound_or_remove [modelDump pA] 9).1 h9, ⟨rfl, h2, rfl⟩, ?_⟩
  exact (C6_delete_notfound_or_remove [modelDump pA, modelDump pB] 2).2
    [modelDump pA] (modelDump pB) [] rfl h2 rfl

theorem updateGo_eq_none {pid : Int} {u : PatientUpdate} :
    ∀ {l : List StoredRecord}, (∀ r ∈ l, r.id ≠ pid) → updateGo pid u l = none := by
  intro l
  induction l with
  | nil => intro _; rfl
  | cons r rest ih =>
    intro h
    simp only [updateGo]
    rw [if_neg (h r (List.mem_cons_self r rest)),
      ih (fun x hx => h x (List.mem_cons_of_mem r hx))]
    rfl

theorem updateGo_found {pid : Int} {u : PatientUpdate} (r : StoredRecord)
    (post : List StoredRecord) (hr : r.id = pid) (hv : (applyUpdate r u).valid) :
    ∀ (pre : List StoredRecord), (∀ x ∈ pre, x.id ≠ pid) →
      updateGo pid u (pre ++ r :: post) =
        some (.ok (pre ++ modelDump (applyUpdate r u) :: post,
          modelDump (applyUpdate r u))) := by
  intro pre
  induction pre with
  | nil =>
    intro _
    simp only [List.nil_append, updateGo]
    rw [if_pos hr, if_pos hv]
  | cons x rest ih =>
    intro h
    simp only [List.cons_append, updateGo, List.append_eq]
    rw [if_neg (h x (List.mem_cons_self x rest)),
      ih (fun y hy => h y (List.mem_cons_of_mem x hy))]
    rfl

theorem updateGo_mem {pid : Int} {u : PatientUpdate} :
    ∀ {l l2 : List StoredRecord} {resp : StoredRecord},
      updateGo pid u l = some (.ok (l2, resp)) →
      ∀ x ∈ l2, x ∈ l ∨ ∃ r ∈ l, x = modelDump (applyUpdate r u) := by
  intro l
  induction l with
  | nil =>
    intro l2 resp h
    simp [updateGo] at h
  | cons r rest ih =>
    intro l2 resp h x hx
    simp only [updateGo] at h
    by_cases hid : r.id = pid
    · rw [if_pos hid] at h
      by_cases hv : (applyUpdate r u).valid
      · rw [if_pos hv] at h
        simp only [Option.some.injEq, Except.ok.injEq, Prod.mk.injEq] at h
        obtain ⟨h1, _⟩ := h
        subst h1
        rcases List.mem_cons.1 hx with hx1 | hx2
        · exact Or.inr ⟨r, List.mem_cons_self r rest, hx1⟩
        · exact Or.inl (List.mem_cons_of_mem r hx2)
      · rw [if_neg hv] at h
        simp at h
    · rw [if_neg hid] at h
      cases hrest : updateGo pid u rest with
      | none =>
        rw [hrest] at h
        simp at h
      | some e =>
        rw [hrest] at h
        cases e with
        | error err => simp [Except.map] at h
        | ok pr =>
          obtain ⟨l2r, respr⟩ := pr
          simp only [Option.map_some', Except.map, Option.some.injEq, Except.ok.injEq,
            Prod.mk.injEq] at h
          obtain ⟨h1, _⟩ := h
          subst h1
          rcases List.mem_cons.1 hx with hx1 | hx2
          · exact Or.inl (hx1 ▸ List.mem_cons_self r rest)
          · rcases ih hrest x hx2 with hm | ⟨r2, hr2, hx3⟩
            · exact Or.inl (List.mem_cons_of_mem r hm)
            · exact Or.inr ⟨r2, List.mem_cons_of_mem r hr2, hx3⟩

/-- C1 counterexample: creating a record on the empty document persists a
record object whose keys include the derived bmi and verified category,
because model_dump serializes the computed fields. -/
theorem C1_base_fields_only_cex :
    (create_patient [] pA).1 = [modelDump pA] ∧
    "bmi" ∈ (modelDump pA).toPairs.map Prod.fst ∧
    "verified" ∈ (modelDump pA).toPairs.map Prod.fst := by
  refine ⟨rfl, ?_, ?_⟩ <;> simp [StoredRecord.toPairs]

/-- C1 amended: every record written to storage by create or update is the
model dump of a patient, and a dumped record carries the seven base fields
plus the derived bmi and verified fields. -/
theorem C1_base_fields_amended :
    (∀ p : Patient, (modelDump p).toPairs.map Prod.fst =
      ["id", "name", "age", "city", "height", "weight", "gender", "bmi", "verified"]) ∧
    (∀ (data : List StoredRecord) (p : Patient),
      (create_patient data p).1 = data ∨
      (create_patient data p).1 = data ++ [modelDump p]) ∧
    (∀ (data : List StoredRecord) (pid : Int) (u : PatientUpdate),
      ∀ x ∈ (update_patient data pid u).1,
        x ∈ data ∨ ∃ r ∈ data, x = modelDump (applyUpdate r u)) := by
  refine ⟨fun p => rfl, ?_, ?_⟩
  · intro data p
    simp only [create_patient]
    by_cases hc : data.any (fun q => q.id == p.id) = true
    · rw [if_pos hc]
      exact Or.inl rfl
    · rw [if_neg hc]
      exact Or.inr rfl
  · intro data pid u x hx
    cases h : updateGo pid u data with
    | none =>
      simp only [update_patient, h] at hx
      exact Or.inl hx
    | some e =>
      cases e with
      | error err =>
        simp only [update_patient, h] at hx
        exact Or.inl hx
      | ok pr =>
        obtain ⟨l2, resp⟩ := pr
        simp only [update_patient, h] at hx
        exact updateGo_mem h x hx

/-- C1 amended witness: the record written by a weight-only update is a
model dump of the merged patient. -/
theorem C1_base_fields_amended_witness :
    modelDump (applyUpdate (modelDump pA) uW) ∈ (update_patient [modelDump pA] 1 uW).1 ∧
    (modelDump (applyUpdate (modelDump pA) uW) ∈ [modelDump pA] ∨
      ∃ r ∈ [modelDump pA],
        modelDump (applyUpdate (modelDump pA) uW) = modelDump (applyUpdate r uW)) := by
  have hmem : modelDump (applyUpdate (modelDump pA) uW) ∈ (update_patient [modelDump pA] 1 uW).1 := by
    rw [show (update_patient [modelDump pA] 1 uW).1 =
      [modelDump (applyUpdate (modelDump pA) uW)] from rfl]
    exact List.mem_singleton.2 rfl
  exact ⟨hmem, C1_base_fields_amended.2.2 [modelDump pA] 1 uW _ hmem⟩

/-- C4: update merges only the supplied fields onto the first stored record
with the given id, every unsupplied field and the id keeping its prior
value, re-validates the merged record, recomputes bmi from the merged
height and weight, persists the replacement in place, and returns the
updated record; an absent id signals NotFound (404) with no write. -/
theorem C4_update_merge :
    ∀ (data : List StoredRecord) (pid : Int) (u : PatientUpdate)
      (pre : List StoredRecord) (r : StoredRecord) (post : List StoredRecord),
      data = pre ++ r :: post → (∀ x ∈ pre, x.id ≠ pid) → r.id = pid →
      (applyUpdate r u).valid →
      (update_patient data pid u =
          (pre ++ modelDump (applyUpdate r u) :: post, .ok (modelDump (applyUpdate r u))) ∧
        (applyUpdate r u).id = r.id ∧
        (u.name = none → (applyUpdate r u).name = r.name) ∧
        (u.age = none → (applyUpdate r u).age = r.age) ∧
        (u.city = none → (applyUpdate r u).city = r.city) ∧
        (u.height = none → (applyUpdate r u).height = r.height) ∧
        (u.weight = none → (applyUpdate r u).weight = r.weight) ∧
        (u.gender = none → (applyUpdate r u).gender = r.gender) ∧
        (∀ v, u.name = some v → (applyUpdate r u).name = v) ∧
        (∀ v, u.age = some v → (applyUpdate r u).age = v) ∧
        (∀ v, u.city = some v → (applyUpdate r u).city = v) ∧
        (∀ v, u.height = some v → (applyUpdate r u).height = v) ∧
        (∀ v, u.weight = some v → (applyUpdate r u).weight = v) ∧
        (∀ v, u.gender = some v → (applyUpdate r u).gender = v) ∧
        (modelDump (applyUpdate r u)).bmi =
          round2 ((applyUpdate r u).weight / ((applyUpdate r u).height / 100) ^ 2)) ∧
      (∀ d2 : List StoredRecord, (∀ x ∈ d2, x.id ≠ pid) →
        update_patient d2 pid u = (d2, .error ⟨404, notFoundDetail⟩)) := by
  intro data pid u pre r post hdata hpre hr hv
  constructor
  · refine ⟨?_, rfl, ?_, ?_, ?_, ?_, ?_, ?_, ?_, ?_, ?_, ?_, ?_, ?_, rfl⟩
    · subst hdata
      simp only [update_patient]
      rw [updateGo_found r post hr hv pre hpre]
    · intro h; simp [applyUpdate, h]
    · intro h; simp [applyUpdate, h]
    · intro h; simp [applyUpdate, h]
    · intro h; simp [applyUpdate, h]
    · intro h; simp [applyUpdate, h]
    · intro h; simp [applyUpdate, h]
    · intro v h; simp [applyUpdate, h]
    · intro v h; simp [applyUpdate, h]
    · intro v h; simp [applyUpdate, h]
    · intro v h; simp [applyUpdate, h]
    · intro v h; simp [applyUpdate, h]
    · intro v h; simp [applyUpdate, h]
  · intro d2 h
    simp only [update_patient]
    rw [updateGo_eq_none h]

/-- C4 witness: updating only the weight of the single stored record
persists the merged dump and returns it. -/
theorem C4_update_merge_witness :
    (∀ x ∈ ([] : List StoredRecord), x.id ≠ (1 : Int)) ∧
    (modelDump pA).id = 1 ∧ (applyUpdate (modelDump pA) uW).valid ∧
    update_patient [modelDump pA] 1 uW =
      ([modelDump (applyUpdate (modelDump pA) uW)],
        .ok (modelDump (applyUpdate (modelDump pA) uW))) := by
  have hpre : ∀ x ∈ ([] : List StoredRecord), x.id ≠ (1 : Int) := by simp
  have hv : (applyUpdate (modelDump pA) uW).valid := by
    norm_num [applyUpdate, modelDump, pA, uW, Patient.valid]
  have h := (C4_update_merge [modelDump pA] 1 uW [] (modelDump pA) [] rfl hpre rfl hv).1.1
  exact ⟨hpre, rfl, hv, by simpa using h⟩

theorem leDesc_trans (field : String) :
    ∀ a b c : Patient, leDesc field a b → leDesc field b c → leDesc field a c := by
  intro a b c hab hbc
  simp only [leDesc, decide_eq_true_iff] at *
  exact le_trans hbc hab

theorem leDesc_total (field : String) :
    ∀ a b : Patient, leDesc field a b || leDesc field b a := by
  intro a b
  simp only [leDesc, Bool.or_eq_true, decide_eq_true_iff]
  exact le_total (sortKey field b) (sortKey field a)

theorem leAsc_trans (field : String) :
    ∀ a b c : Patient, leAsc field a b → leAsc field b c → leAsc field a c := by
  intro a b c hab hbc
  simp only [leAsc, decide_eq_true_iff] at *
  exact le_trans hab hbc

theorem leAsc_total (field : String) :
    ∀ a b : Patient, leAsc field a b || leAsc field b a := by
  intro a b
  simp only [leAsc, Bool.or_eq_true, decide_eq_true_iff]
  exact le_total (sortKey field a) (sortKey field b)

/-- C8: for a collection of valid records and a valid field, sorting with
order desc returns the records in non-increasing order of that field and
asc in non-decreasing order, each output a permutation of the dumped
collection; the sort key for field bmi is the bmi recomputed from the
record as re-read. -/
theorem C8_sort_order :
    ∀ (data : List StoredRecord) (field : String), field ∈ validFields →
      (∀ r ∈ data, (toPatient r).valid) →
      (∃ outD, (sort_patients data field "desc").2 = .ok outD ∧
        outD.Pairwise (fun a b => sortKey field (toPatient b) ≤ sortKey field (toPatient a)) ∧
        outD.Perm (data.map fun r => modelDump (toPatient r))) ∧
      (∃ outA, (sort_patients data field "asc").2 = .ok outA ∧
        outA.Pairwise (fun a b => sortKey field (toPatient a) ≤ sortKey field (toPatient b)) ∧
        outA.Perm (data.map fun r => modelDump (toPatient r))) ∧
      (field = "bmi" → ∀ r : StoredRecord, sortKey field (toPatient r) = (toPatient r).bmi) := by
  intro data field hf _
  have hd1 : ¬ (field ∉ validFields) := not_not_intro hf
  have hd2 : ¬ ("desc" ∉ ["asc", "desc"]) := by decide
  have ha2 : ¬ ("asc" ∉ ["asc", "desc"]) := by decide
  have hperm : ∀ le : Patient → Patient → Bool,
      (((data.map toPatient).mergeSort le).map modelDump).Perm
        (data.map fun r => modelDump (toPatient r)) := by
    intro le
    have h1 := (List.mergeSort_perm (data.map toPatient) le).map modelDump
    simpa [List.map_map, Function.comp] using h1
  refine ⟨⟨((data.map toPatient).mergeSort (leDesc field)).map modelDump, ?_, ?_, hperm _⟩,
    ⟨((data.map toPatient).mergeSort (leAsc field)).map modelDump, ?_, ?_, hperm _⟩, ?_⟩
  · simp only [sort_patients]
    rw [if_neg hd1, if_neg hd2]
    simp
  · have hs := List.sorted_mergeSort (leDesc_trans field) (leDesc_total field)
      (data.map toPatient)
    rw [List.pairwise_map]
    exact hs.imp (fun h => by
      simpa only [leDesc, decide_eq_true_iff] using h)
  · simp only [sort_patients]
    rw [if_neg hd1, if_neg ha2]
    simp
  · have hs := List.sorted_mergeSort (leAsc_trans field) (leAsc_total field)
      (data.map toPatient)
    rw [List.pairwise_map]
    exact hs.imp (fun h => by
      simpa only [leAsc, decide_eq_true_iff] using h)
  · intro h r
    subst h
    simp [sortKey]

/-- C8 witness: sorting a concrete two-record document by age in
descending order. -/
theorem C8_sort_order_witness :
    "age" ∈ validFields ∧
    (∀ r ∈ [modelDump pA, modelDump pB], (toPatient r).valid) ∧
    (∃ outD, (sort_patients [modelDump pA, modelDump pB] "age" "desc").2 = .ok outD ∧
      outD.Pairwise (fun a b => sortKey "age" (toPatient b) ≤ sortKey "age" (toPatient a)) ∧
      outD.Perm ([modelDump pA, modelDump pB].map fun r => modelDump (toPatient r))) := by
  have hf : "age" ∈ validFields := by decide
  have hv : ∀ r ∈ [modelDump pA, modelDump pB], (toPatient r).valid := by
    intro r hr
    rcases List.mem_cons.1 hr with h | h
    · subst h; decide
    · rw [List.mem_singleton] at h
      subst h; decide
  exact ⟨hf, hv, (C8_sort_order [modelDump pA, modelDump pB] "age" hf hv).1⟩
